import Mathlib

/-!
Verification of the ARP logger core (package arp): the binding table and the
classification algorithm of Logger.Log, the construction checks of NewLogger,
and the raw-dump rendering of prettyPrint.

The Go map from ipv4 keys to hardware addresses is embedded as an association
list with unique keys; Go map iteration (the scan-and-delete loops) becomes
structural recursion in list order.  Byte slices are lists of Nat; the Go
slice-to-array conversion, which panics when the slice is too short, is
embedded as an Option so a panic shows up as none.  Output written through
the log sink is collected as a list of rendered lines.
-/

namespace Arp

/-- Destination flag Print2Log (iota + 1): store logs to the log file. -/
def Print2Log : Nat := 1

/-- Destination flag Print2Console: print logs to console. -/
def Print2Console : Nat := 2

/-- Mode flag LogAllPackets (iota + 1): dump every incoming packet. -/
def LogAllPackets : Nat := 1

/-- Mode flag LogNewPairs: report only new or changed IP to MAC pairs. -/
def LogNewPairs : Nat := 2

/-- Tag prepended to warning lines. -/
def logWarningTag : String := "[WARNING] "

/-- Tag prepended to changed-mapping lines. -/
def logChangeMappingTag : String := "[CHANGE MAPPING] "

/-- Tag prepended to new-mapping lines. -/
def logNewMappingTag : String := "[NEW MAPPING] "

/-- gopacket operation code for an ARP request. -/
def ARPRequest : Nat := 1

/-- gopacket operation code for an ARP reply. -/
def ARPReply : Nat := 2

/-- The type ipv4 = [4]byte used as the key of the ARP table. -/
structure ipv4 where
  b0 : Nat
  b1 : Nat
  b2 : Nat
  b3 : Nat
deriving DecidableEq, Repr

/-- net.HardwareAddr: a byte slice. -/
abbrev HardwareAddr := List Nat

/-- The map type of Logger.arptable, embedded as an association list. -/
abbrev Table := List (ipv4 × HardwareAddr)

/-- The fields of layers.ARP that the logger reads. -/
structure ARP where
  Operation : Nat
  HwAddressSize : Nat
  ProtAddressSize : Nat
  SourceHwAddress : List Nat
  SourceProtAddress : List Nat
  DstHwAddress : List Nat
  DstProtAddress : List Nat
deriving DecidableEq, Repr

/-- The Go conversion ipv4(slice): takes the first four bytes and panics
(none) when the slice holds fewer than four. -/
def toIpv4 : List Nat → Option ipv4
  | b0 :: b1 :: b2 :: b3 :: _ => some ⟨b0, b1, b2, b3⟩
  | _ => none

/-- Map lookup: l.arptable[ip] with its ok flag. -/
def lookupTable : Table → ipv4 → Option HardwareAddr
  | [], _ => none
  | (k, v) :: rest, ip => if k = ip then some v else lookupTable rest ip

/-- Map assignment l.arptable[ip] = hw: overwrite the entry with key ip if
present, append a new entry otherwise. -/
def insertTable : Table → ipv4 → HardwareAddr → Table
  | [], ip, hw => [(ip, hw)]
  | (k, v) :: rest, ip, hw =>
      if k = ip then (ip, hw) :: rest else (k, v) :: insertTable rest ip hw

/-- Map deletion delete(l.arptable, k). -/
def eraseKey : Table → ipv4 → Table
  | [], _ => []
  | (k, v) :: rest, ip => if k = ip then rest else (k, v) :: eraseKey rest ip

/-- The scan-and-delete loop of the changed-MAC branch: range over the table,
delete the first entry whose value equals hw, break. -/
def deleteByValue : Table → HardwareAddr → Table
  | [], _ => []
  | (k, v) :: rest, hw =>
      if v = hw then rest else (k, v) :: deleteByValue rest hw

/-- The scan of the unknown-IP branch: range over the table and report the
first key whose value equals hw. -/
def findByValue : Table → HardwareAddr → Option ipv4
  | [], _ => none
  | (k, v) :: rest, hw => if v = hw then some k else findByValue rest hw

/-- One character of the digit string indexed by net.HardwareAddr.String:
position n of the string holding the digits zero to nine followed by the
letters a to f. -/
def hexDigit (n : Nat) : Char :=
  if n < 10 then Char.ofNat (48 + n) else Char.ofNat (97 + (n - 10))

/-- Two hex digits of one byte, as written by net.HardwareAddr.String. -/
def byteHex (b : Nat) : String :=
  String.mk [hexDigit (b / 16 % 16), hexDigit (b % 16)]

/-- The tail of the rendering loop of net.HardwareAddr.String: every byte
after the first is preceded by a colon. -/
def hwAddrRest : List Nat → String
  | [] => ""
  | b :: rest => ":" ++ byteHex b ++ hwAddrRest rest

/-- net.HardwareAddr.String: colon-separated lowercase hex bytes, empty for
an empty address. -/
def hwAddrString : List Nat → String
  | [] => ""
  | b :: rest => byteHex b ++ hwAddrRest rest

/-- Rendering of a map index result through the %s verb: a missing entry is
the nil HardwareAddr, which renders as the empty string. -/
def hwOptString : Option HardwareAddr → String
  | some hw => hwAddrString hw
  | none => ""

/-- netip.Addr.String on an AddrFrom4 value: dotted decimal. -/
def ipv4String (ip : ipv4) : String :=
  toString ip.b0 ++ "." ++ toString ip.b1 ++ "." ++ toString ip.b2 ++ "." ++ toString ip.b3

/-- The operation name chosen by the switch in prettyPrint; the default
branch leaves it empty. -/
def opName (op : Nat) : String :=
  if op = ARPRequest then "Request" else if op = ARPReply then "Reply" else ""

/-- prettyPrint: the raw-dump line.  The two AddrFrom4 conversions panic
(none) when a protocol address slice holds fewer than four bytes. -/
def prettyPrint (a : ARP) : Option String :=
  match toIpv4 a.SourceProtAddress, toIpv4 a.DstProtAddress with
  | some sip, some dip =>
      some ("Operation: " ++ opName a.Operation
        ++ ", Source MAC: " ++ hwAddrString a.SourceHwAddress
        ++ ", Source IP: " ++ ipv4String sip
        ++ ", Destination MAC: " ++ hwAddrString a.DstHwAddress
        ++ ", Destination IP: " ++ ipv4String dip)
  | _, _ => none

/-- The warning line for a hardware address size other than six. -/
def warnHwLine (n : Nat) : String :=
  logWarningTag ++ "Packet MAC address size is not correct: " ++ toString n
    ++ ", but should be 6 bytes"

/-- The warning line for a protocol address size other than four. -/
def warnProtLine (n : Nat) : String :=
  logWarningTag ++ "Packet IPv4 address size is not correct: " ++ toString n
    ++ ", but should be 4 bytes"

/-- The changed-mapping line, with the four %s arguments already rendered. -/
def changeMappingLine (pIp pHw nIp nHw : String) : String :=
  logChangeMappingTag ++ "Previous mapping: " ++ pIp ++ " <-> " ++ pHw
    ++ ", new mapping: " ++ nIp ++ " <-> " ++ nHw

/-- The new-mapping line. -/
def newMappingLine (ip hw : String) : String :=
  logNewMappingTag ++ ip ++ " <-> " ++ hw

/-- The logger state: the mode bitmask and the ARP table.  The output sink
is modelled by the lines a call returns. -/
structure Logger where
  mode : Nat
  arptable : Table
deriving Repr

/-- The table and the rendered lines produced by one Log call. -/
structure LogResult where
  table : Table
  lines : List String
deriving DecidableEq, Repr

/-- The raw-dump step: one prettyPrint line when the dump-all flag is set,
none otherwise; none embeds a panic inside prettyPrint. -/
def dumpLines (l : Logger) (a : ARP) : Option (List String) :=
  if l.mode &&& LogAllPackets = LogAllPackets then
    (prettyPrint a).map (fun s => [s])
  else some []

/-- Logger.Log: validate the two size fields, optionally dump the packet,
then classify the sender pair against the table.  none embeds a run-time
panic of a slice-to-array conversion. -/
def Logger.Log (l : Logger) (a : ARP) : Option LogResult :=
  if a.HwAddressSize ≠ 6 then
    some ⟨l.arptable, [warnHwLine a.HwAddressSize]⟩
  else if a.ProtAddressSize ≠ 4 then
    some ⟨l.arptable, [warnProtLine a.ProtAddressSize]⟩
  else
    match dumpLines l a with
    | none => none
    | some dump =>
      match toIpv4 a.SourceProtAddress with
      | none => none
      | some ipaddr =>
        match lookupTable l.arptable ipaddr with
        | some addr =>
          if a.SourceHwAddress = addr then
            some ⟨l.arptable, dump⟩
          else
            some ⟨insertTable (deleteByValue l.arptable a.SourceHwAddress) ipaddr
                a.SourceHwAddress,
              dump ++ (if l.mode &&& LogNewPairs = LogNewPairs then
                [changeMappingLine (ipv4String ipaddr)
                  (hwOptString (lookupTable (deleteByValue l.arptable a.SourceHwAddress) ipaddr))
                  (ipv4String ipaddr) (hwAddrString a.SourceHwAddress)]
                else [])⟩
        | none =>
          match findByValue l.arptable a.SourceHwAddress with
          | some k =>
            some ⟨insertTable (eraseKey l.arptable k) ipaddr a.SourceHwAddress,
              dump ++ (if l.mode &&& LogNewPairs = LogNewPairs then
                [changeMappingLine (ipv4String k) (hwAddrString a.SourceHwAddress)
                  (ipv4String ipaddr) (hwAddrString a.SourceHwAddress)]
                else [])⟩
          | none =>
            some ⟨insertTable l.arptable ipaddr a.SourceHwAddress,
              dump ++ (if l.mode &&& LogNewPairs = LogNewPairs then
                [newMappingLine (ipv4String ipaddr) (hwAddrString a.SourceHwAddress)]
                else [])⟩

/-- Run Logger.Log over a sequence of announcements, threading the table;
none as soon as one call panics. -/
def processAll (mode : Nat) (t : Table) : List ARP → Option Table
  | [] => some t
  | a :: as =>
    match Logger.Log ⟨mode, t⟩ a with
    | none => none
    | some r => processAll mode r.table as

/-- NewLogger: the construction-time configuration check, performed before
any sink is opened.  The sink wiring itself is outside the model. -/
def NewLogger (dest mode : Nat) : Except String Logger :=
  if dest = 0 ∨ mode = 0 then
    Except.error "dest and mode arguments should be specified"
  else
    Except.ok ⟨mode, []⟩

/-- Whether the pattern list is an initial segment of the second list. -/
def listStarts : List Char → List Char → Bool
  | [], _ => true
  | _ :: _, [] => false
  | a :: as, b :: bs => a = b && listStarts as bs

/-- Whether a rendered line starts with the given tag. -/
def strTagged (t s : String) : Bool := listStarts t.data s.data

/-- How many of the lines start with the given tag. -/
def countTagged (t : String) (lines : List String) : Nat :=
  (lines.filter (fun s => strTagged t s)).length

/-- Whether a line carries one of the three event tags; raw-dump lines carry
none of them. -/
def isEventLine (s : String) : Bool :=
  strTagged logWarningTag s || strTagged logChangeMappingTag s
    || strTagged logNewMappingTag s

/-- How many of the lines are raw-dump lines, that is, lines without any of
the three event tags. -/
def countRawDump (lines : List String) : Nat :=
  (lines.filter (fun s => !isEventLine s)).length

/-- The spec-side table update of one classification step (section 4.2,
steps 2 to 4), written from the words of the spec for comparison with the
table component of Logger.Log. -/
def specUpdate (t : Table) (ip : ipv4) (hw : HardwareAddr) : Table :=
  match lookupTable t ip with
  | some hw0 =>
      if hw0 = hw then t
      else insertTable (deleteByValue t hw) ip hw
  | none =>
      match findByValue t hw with
      | some k => insertTable (eraseKey t k) ip hw
      | none => insertTable t ip hw

/-- The spec-side colon-hex rendering of a hardware address: two lowercase
hex digits per byte, joined by colons. -/
def colonHexForm (hw : List Nat) : String :=
  String.intercalate ":" (hw.map byteHex)

/-- The spec-side dotted-decimal rendering of an IPv4 address. -/
def dottedDecimalForm (ip : ipv4) : String :=
  String.intercalate "." [toString ip.b0, toString ip.b1, toString ip.b2, toString ip.b3]

/-- The table never maps two different IP keys to the same hardware
address. -/
def noSelfConflict (t : Table) : Prop :=
  ∀ ip1 ip2 hw, lookupTable t ip1 = some hw → lookupTable t ip2 = some hw → ip1 = ip2

/-- The keys of the association list are pairwise distinct, as they are for
a Go map. -/
def keysNodup (t : Table) : Prop := (t.map Prod.fst).Nodup

/-- The stored hardware addresses are pairwise distinct. -/
def valuesNodup (t : Table) : Prop := (t.map Prod.snd).Nodup

/-- The inductive invariant maintained by Logger.Log. -/
def tableInv (t : Table) : Prop := keysNodup t ∧ valuesNodup t

theorem listStarts_append_self (p q : List Char) : listStarts p (p ++ q) = true := by
  induction p with
  | nil => rfl
  | cons a as ih => simp [listStarts, ih]

theorem strTagged_append_self (t s : String) : strTagged t (t ++ s) = true := by
  simp [strTagged, String.data_append, listStarts_append_self]

theorem strTagged_warn_hw (n : Nat) : strTagged logWarningTag (warnHwLine n) = true := by
  have h : warnHwLine n = logWarningTag
      ++ ("Packet MAC address size is not correct: " ++ toString n ++ ", but should be 6 bytes") := by
    simp [warnHwLine, String.append_assoc]
  rw [h, strTagged_append_self]

theorem strTagged_warn_prot (n : Nat) : strTagged logWarningTag (warnProtLine n) = true := by
  have h : warnProtLine n = logWarningTag
      ++ ("Packet IPv4 address size is not correct: " ++ toString n ++ ", but should be 4 bytes") := by
    simp [warnProtLine, String.append_assoc]
  rw [h, strTagged_append_self]

theorem strTagged_change_self (a b c d : String) :
    strTagged logChangeMappingTag (changeMappingLine a b c d) = true := by
  have h : changeMappingLine a b c d = logChangeMappingTag
      ++ ("Previous mapping: " ++ a ++ " <-> " ++ b ++ ", new mapping: " ++ c ++ " <-> " ++ d) := by
    simp [changeMappingLine, String.append_assoc]
  rw [h, strTagged_append_self]

theorem strTagged_new_self (a b : String) :
    strTagged logNewMappingTag (newMappingLine a b) = true := by
  have h : newMappingLine a b = logNewMappingTag ++ (a ++ " <-> " ++ b) := by
    simp [newMappingLine, String.append_assoc]
  rw [h, strTagged_append_self]

theorem warn_not_change (n : Nat) : strTagged logChangeMappingTag (warnHwLine n) = false := by
  simp [warnHwLine, logWarningTag, logChangeMappingTag, strTagged, String.data_append, listStarts]

theorem warn_prot_not_change (n : Nat) :
    strTagged logChangeMappingTag (warnProtLine n) = false := by
  simp [warnProtLine, logWarningTag, logChangeMappingTag, strTagged, String.data_append, listStarts]

theorem warn_not_new (n : Nat) : strTagged logNewMappingTag (warnHwLine n) = false := by
  simp [warnHwLine, logWarningTag, logNewMappingTag, strTagged, String.data_append, listStarts]

theorem warn_prot_not_new (n : Nat) : strTagged logNewMappingTag (warnProtLine n) = false := by
  simp [warnProtLine, logWarningTag, logNewMappingTag, strTagged, String.data_append, listStarts]

theorem change_not_new (a b c d : String) :
    strTagged logNewMappingTag (changeMappingLine a b c d) = false := by
  simp [changeMappingLine, logChangeMappingTag, logNewMappingTag, strTagged,
    String.data_append, listStarts]

theorem new_not_change (a b : String) :
    strTagged logChangeMappingTag (newMappingLine a b) = false := by
  simp [newMappingLine, logNewMappingTag, logChangeMappingTag, strTagged,
    String.data_append, listStarts]

theorem change_not_warn (a b c d : String) :
    strTagged logWarningTag (changeMappingLine a b c d) = false := by
  simp [changeMappingLine, logChangeMappingTag, logWarningTag, strTagged,
    String.data_append, listStarts]

theorem new_not_warn (a b : String) :
    strTagged logWarningTag (newMappingLine a b) = false := by
  simp [newMappingLine, logNewMappingTag, logWarningTag, strTagged,
    String.data_append, listStarts]

theorem prettyPrint_not_event (a : ARP) (s : String) (h : prettyPrint a = some s) :
    isEventLine s = false := by
  unfold prettyPrint at h
  rcases hs : toIpv4 a.SourceProtAddress with _ | sip <;> rw [hs] at h
  · exact absurd h (by simp)
  rcases hd : toIpv4 a.DstProtAddress with _ | dip <;> rw [hd] at h
  · exact absurd h (by simp)
  simp only [Option.some_inj] at h
  subst h
  simp [isEventLine, logWarningTag, logChangeMappingTag, logNewMappingTag, strTagged,
    String.data_append, listStarts]

theorem countTagged_nil (t : String) : countTagged t [] = 0 := rfl

theorem countTagged_append (t : String) (xs ys : List String) :
    countTagged t (xs ++ ys) = countTagged t xs + countTagged t ys := by
  simp [countTagged, List.filter_append]

theorem countTagged_singleton_true (t s : String) (h : strTagged t s = true) :
    countTagged t [s] = 1 := by
  simp [countTagged, h]

theorem countTagged_singleton_false (t s : String) (h : strTagged t s = false) :
    countTagged t [s] = 0 := by
  simp [countTagged, h]

theorem countTagged_zero_of_not_event (t : String) (lines : List String)
    (ht : t = logWarningTag ∨ t = logChangeMappingTag ∨ t = logNewMappingTag)
    (h : ∀ s ∈ lines, isEventLine s = false) : countTagged t lines = 0 := by
  have h' : ∀ s ∈ lines, strTagged t s = false := by
    intro s hs
    have := h s hs
    simp [isEventLine] at this
    rcases ht with ht | ht | ht <;> subst ht <;> simp [this]
  simp [countTagged]
  intro s hs
  simp [h' s hs]

theorem countRawDump_append (xs ys : List String) :
    countRawDump (xs ++ ys) = countRawDump xs + countRawDump ys := by
  simp [countRawDump, List.filter_append]

theorem countRawDump_singleton_event (s : String) (h : isEventLine s = true) :
    countRawDump [s] = 0 := by
  simp [countRawDump, h]

theorem countRawDump_singleton_raw (s : String) (h : isEventLine s = false) :
    countRawDump [s] = 1 := by
  simp [countRawDump, h]

theorem lookupTable_insertTable_self (t : Table) (k : ipv4) (v : HardwareAddr) :
    lookupTable (insertTable t k v) k = some v := by
  induction t with
  | nil => simp [insertTable, lookupTable]
  | cons p rest ih =>
    by_cases hk : p.1 = k
    · simp [insertTable, hk, lookupTable]
    · simp [insertTable, hk, lookupTable, ih]

theorem insertTable_of_lookup_none (t : Table) (k : ipv4) (v : HardwareAddr)
    (h : lookupTable t k = none) : insertTable t k v = t ++ [(k, v)] := by
  induction t with
  | nil => rfl
  | cons p rest ih =>
    by_cases hk : p.1 = k
    · simp [lookupTable, hk] at h
    · simp [lookupTable, hk] at h
      simp [insertTable, hk, ih h]

theorem deleteByValue_of_no_match (t : Table) (hw : HardwareAddr)
    (h : ∀ p ∈ t, p.2 ≠ hw) : deleteByValue t hw = t := by
  induction t with
  | nil => rfl
  | cons p rest ih =>
    have hp : p.2 ≠ hw := h p (by simp)
    simp [deleteByValue, hp]
    exact ih (fun q hq => h q (by simp [hq]))

theorem deleteByValue_sublist (t : Table) (hw : HardwareAddr) :
    List.Sublist (deleteByValue t hw) t := by
  induction t with
  | nil => exact List.Sublist.refl []
  | cons p rest ih =>
    obtain ⟨pk, pv⟩ := p
    by_cases hp : pv = hw
    · simp only [deleteByValue, if_pos hp]
      exact List.sublist_cons_self (pk, pv) rest
    · simp only [deleteByValue, if_neg hp]
      exact List.Sublist.cons₂ (pk, pv) ih

theorem eraseKey_sublist (t : Table) (k : ipv4) : List.Sublist (eraseKey t k) t := by
  induction t with
  | nil => exact List.Sublist.refl []
  | cons p rest ih =>
    obtain ⟨pk, pv⟩ := p
    by_cases hp : pk = k
    · simp only [eraseKey, if_pos hp]
      exact List.sublist_cons_self (pk, pv) rest
    · simp only [eraseKey, if_neg hp]
      exact List.Sublist.cons₂ (pk, pv) ih

theorem findByValue_none (t : Table) (hw : HardwareAddr)
    (h : findByValue t hw = none) : ∀ p ∈ t, p.2 ≠ hw := by
  induction t with
  | nil => simp
  | cons p rest ih =>
    obtain ⟨pk, pv⟩ := p
    by_cases hp : pv = hw
    · simp [findByValue, hp] at h
    · simp only [findByValue, if_neg hp] at h
      intro q hq
      rcases List.mem_cons.mp hq with hq | hq
      · subst hq
        exact hp
      · exact ih h q hq

theorem findByValue_some_mem (t : Table) (hw : HardwareAddr) (k : ipv4)
    (h : findByValue t hw = some k) : (k, hw) ∈ t := by
  induction t with
  | nil => simp [findByValue] at h
  | cons p rest ih =>
    obtain ⟨pk, pv⟩ := p
    by_cases hp : pv = hw
    · simp only [findByValue, if_pos hp, Option.some_inj] at h
      subst h
      subst hp
      exact List.mem_cons_self _ _
    · simp only [findByValue, if_neg hp] at h
      exact List.mem_cons_of_mem _ (ih h)

theorem lookupTable_some_mem (t : Table) (k : ipv4) (v : HardwareAddr)
    (h : lookupTable t k = some v) : (k, v) ∈ t := by
  induction t with
  | nil => simp [lookupTable] at h
  | cons p rest ih =>
    obtain ⟨pk, pv⟩ := p
    by_cases hp : pk = k
    · simp only [lookupTable, if_pos hp, Option.some_inj] at h
      subst h
      subst hp
      exact List.mem_cons_self _ _
    · simp only [lookupTable, if_neg hp] at h
      exact List.mem_cons_of_mem _ (ih h)

theorem fst_mem_insertTable (t : Table) (k : ipv4) (v : HardwareAddr) (x : ipv4)
    (h : x ∈ (insertTable t k v).map Prod.fst) : x = k ∨ x ∈ t.map Prod.fst := by
  induction t with
  | nil => simpa [insertTable] using h
  | cons p rest ih =>
    obtain ⟨pk, pv⟩ := p
    by_cases hp : pk = k
    · simp only [insertTable, if_pos hp] at h
      simp only [List.map_cons, List.mem_cons] at h ⊢
      tauto
    · simp only [insertTable, if_neg hp] at h
      simp only [List.map_cons, List.mem_cons] at h ⊢
      rcases h with h | h
      · tauto
      · rcases ih h with h | h <;> tauto

theorem snd_mem_insertTable (t : Table) (k : ipv4) (v : HardwareAddr) (x : HardwareAddr)
    (h : x ∈ (insertTable t k v).map Prod.snd) : x = v ∨ x ∈ t.map Prod.snd := by
  induction t with
  | nil => simpa [insertTable] using h
  | cons p rest ih =>
    obtain ⟨pk, pv⟩ := p
    by_cases hp : pk = k
    · simp only [insertTable, if_pos hp] at h
      simp only [List.map_cons, List.mem_cons] at h ⊢
      tauto
    · simp only [insertTable, if_neg hp] at h
      simp only [List.map_cons, List.mem_cons] at h ⊢
      rcases h with h | h
      · tauto
      · rcases ih h with h | h <;> tauto

theorem insertTable_keysNodup (t : Table) (k : ipv4) (v : HardwareAddr)
    (h : keysNodup t) : keysNodup (insertTable t k v) := by
  induction t with
  | nil => simp [insertTable, keysNodup]
  | cons p rest ih =>
    obtain ⟨pk, pv⟩ := p
    simp only [keysNodup, List.map_cons, List.nodup_cons] at h
    by_cases hp : pk = k
    · simp only [insertTable, if_pos hp, keysNodup, List.map_cons, List.nodup_cons]
      subst hp
      exact h
    · simp only [insertTable, if_neg hp, keysNodup, List.map_cons, List.nodup_cons]
      refine ⟨fun hc => ?_, ih h.2⟩
      rcases fst_mem_insertTable rest k v pk hc with hc | hc
      · exact hp hc
      · exact h.1 hc

theorem insertTable_valuesNodup (t : Table) (k : ipv4) (v : HardwareAddr)
    (h : valuesNodup t) (hv : v ∉ t.map Prod.snd) :
    valuesNodup (insertTable t k v) := by
  induction t with
  | nil => simp [insertTable, valuesNodup]
  | cons p rest ih =>
    obtain ⟨pk, pv⟩ := p
    simp only [valuesNodup, List.map_cons, List.nodup_cons] at h
    simp only [List.map_cons, List.mem_cons] at hv
    push_neg at hv
    by_cases hp : pk = k
    · simp only [insertTable, if_pos hp, valuesNodup, List.map_cons, List.nodup_cons]
      refine ⟨fun hc => hv.2 hc, h.2⟩
    · simp only [insertTable, if_neg hp, valuesNodup, List.map_cons, List.nodup_cons]
      refine ⟨fun hc => ?_, ih h.2 hv.2⟩
      rcases snd_mem_insertTable rest k v pv hc with hc | hc
      · exact hv.1 hc.symm
      · exact h.1 hc

theorem deleteByValue_value_not_mem (t : Table) (hw : HardwareAddr)
    (h : valuesNodup t) : hw ∉ (deleteByValue t hw).map Prod.snd := by
  induction t with
  | nil => simp [deleteByValue]
  | cons p rest ih =>
    obtain ⟨pk, pv⟩ := p
    simp only [valuesNodup, List.map_cons, List.nodup_cons] at h
    by_cases hp : pv = hw
    · simp only [deleteByValue, if_pos hp]
      subst hp
      exact h.1
    · simp only [deleteByValue, if_neg hp, List.map_cons, List.mem_cons]
      push_neg
      exact ⟨fun hc => hp hc.symm, ih h.2⟩

theorem eraseKey_key_not_mem (t : Table) (k : ipv4)
    (h : keysNodup t) : k ∉ (eraseKey t k).map Prod.fst := by
  induction t with
  | nil => simp [eraseKey]
  | cons p rest ih =>
    obtain ⟨pk, pv⟩ := p
    simp only [keysNodup, List.map_cons, List.nodup_cons] at h
    by_cases hp : pk = k
    · simp only [eraseKey, if_pos hp]
      subst hp
      exact h.1
    · simp only [eraseKey, if_neg hp, List.map_cons, List.mem_cons]
      push_neg
      exact ⟨fun hc => hp hc.symm, ih h.2⟩

theorem keysNodup_of_sublist (t t' : Table) (hs : List.Sublist t' t)
    (h : keysNodup t) : keysNodup t' :=
  List.Nodup.sublist (List.Sublist.map Prod.fst hs) h

theorem valuesNodup_of_sublist (t t' : Table) (hs : List.Sublist t' t)
    (h : valuesNodup t) : valuesNodup t' :=
  List.Nodup.sublist (List.Sublist.map Prod.snd hs) h

theorem eraseKey_drops_value (t : Table) (k : ipv4) (hw : HardwareAddr)
    (hinv : tableInv t) (hmem : (k, hw) ∈ t) :
    hw ∉ (eraseKey t k).map Prod.snd := by
  intro hcon
  obtain ⟨q, hq, hqv⟩ := List.mem_map.mp hcon
  have hqt : q ∈ t := List.Sublist.subset (eraseKey_sublist t k) hq
  have hqe : q = (k, hw) := List.inj_on_of_nodup_map hinv.2 hqt hmem (by simpa using hqv)
  have : k ∈ (eraseKey t k).map Prod.fst :=
    List.mem_map.mpr ⟨q, hq, by simp [hqe]⟩
  exact eraseKey_key_not_mem t k hinv.1 this

theorem specUpdate_inv (t : Table) (ip : ipv4) (hw : HardwareAddr)
    (hinv : tableInv t) : tableInv (specUpdate t ip hw) := by
  unfold specUpdate
  rcases hl : lookupTable t ip with _ | addr
  · rcases hf : findByValue t hw with _ | k
    · have hv : hw ∉ t.map Prod.snd := by
        intro hc
        obtain ⟨q, hq, hqv⟩ := List.mem_map.mp hc
        exact findByValue_none t hw hf q hq hqv
      exact ⟨insertTable_keysNodup t ip hw hinv.1,
        insertTable_valuesNodup t ip hw hinv.2 hv⟩
    · have hmem : (k, hw) ∈ t := findByValue_some_mem t hw k hf
      have hsub := eraseKey_sublist t k
      exact ⟨insertTable_keysNodup _ ip hw (keysNodup_of_sublist t _ hsub hinv.1),
        insertTable_valuesNodup _ ip hw (valuesNodup_of_sublist t _ hsub hinv.2)
          (eraseKey_drops_value t k hw hinv hmem)⟩
  · by_cases heq : addr = hw
    · simpa [heq] using hinv
    · have hsub := deleteByValue_sublist t hw
      simp only [if_neg heq]
      exact ⟨insertTable_keysNodup _ ip hw (keysNodup_of_sublist t _ hsub hinv.1),
        insertTable_valuesNodup _ ip hw (valuesNodup_of_sublist t _ hsub hinv.2)
          (deleteByValue_value_not_mem t hw hinv.2)⟩

theorem dumpLines_not_event (l : Logger) (a : ARP) (d : List String)
    (h : dumpLines l a = some d) : ∀ s ∈ d, isEventLine s = false := by
  unfold dumpLines at h
  by_cases hm : l.mode &&& LogAllPackets = LogAllPackets
  · rw [if_pos hm] at h
    rcases hp : prettyPrint a with _ | s <;> rw [hp] at h
    · exact Option.noConfusion h
    · simp only [Option.map_some', Option.some_inj] at h
      subst h
      intro x hx
      rcases List.mem_singleton.mp hx with hx
      subst hx
      exact prettyPrint_not_event a _ hp
  · rw [if_neg hm] at h
    simp only [Option.some_inj] at h
    subst h
    simp

theorem log_invalid_size (l : Logger) (a : ARP)
    (hbad : a.HwAddressSize ≠ 6 ∨ a.ProtAddressSize ≠ 4) :
    ∃ w, Logger.Log l a = some ⟨l.arptable, [w]⟩ ∧
      (w = warnHwLine a.HwAddressSize ∨ w = warnProtLine a.ProtAddressSize) := by
  by_cases h6 : a.HwAddressSize = 6
  · have h4 : a.ProtAddressSize ≠ 4 := by
      rcases hbad with h | h
      · exact absurd h6 h
      · exact h
    exact ⟨warnProtLine a.ProtAddressSize, by simp [Logger.Log, h6, h4], Or.inr rfl⟩
  · exact ⟨warnHwLine a.HwAddressSize, by simp [Logger.Log, h6], Or.inl rfl⟩

theorem log_valid_shape (mode : Nat) (t : Table) (a : ARP) (r : LogResult) (ip : ipv4)
    (h6 : a.HwAddressSize = 6) (h4 : a.ProtAddressSize = 4)
    (hip : toIpv4 a.SourceProtAddress = some ip)
    (h : Logger.Log ⟨mode, t⟩ a = some r) :
    ∃ dump, dumpLines ⟨mode, t⟩ a = some dump ∧
      ((∃ addr, lookupTable t ip = some addr ∧ a.SourceHwAddress = addr ∧
          r = ⟨t, dump⟩) ∨
       (∃ addr, lookupTable t ip = some addr ∧ a.SourceHwAddress ≠ addr ∧
          r = ⟨insertTable (deleteByValue t a.SourceHwAddress) ip a.SourceHwAddress,
            dump ++ (if mode &&& LogNewPairs = LogNewPairs then
              [changeMappingLine (ipv4String ip)
                (hwOptString (lookupTable (deleteByValue t a.SourceHwAddress) ip))
                (ipv4String ip) (hwAddrString a.SourceHwAddress)] else [])⟩) ∨
       (∃ k, lookupTable t ip = none ∧
          findByValue t a.SourceHwAddress = some k ∧
          r = ⟨insertTable (eraseKey t k) ip a.SourceHwAddress,
            dump ++ (if mode &&& LogNewPairs = LogNewPairs then
              [changeMappingLine (ipv4String k) (hwAddrString a.SourceHwAddress)
                (ipv4String ip) (hwAddrString a.SourceHwAddress)] else [])⟩) ∨
       (lookupTable t ip = none ∧
          findByValue t a.SourceHwAddress = none ∧
          r = ⟨insertTable t ip a.SourceHwAddress,
            dump ++ (if mode &&& LogNewPairs = LogNewPairs then
              [newMappingLine (ipv4String ip) (hwAddrString a.SourceHwAddress)] else [])⟩)) := by
  unfold Logger.Log at h
  rw [if_neg (by simp [h6]), if_neg (by simp [h4])] at h
  split at h
  · exact Option.noConfusion h
  rename_i dump hd
  split at h
  · exact Option.noConfusion h
  rename_i ipaddr hipa
  rw [hip] at hipa
  injection hipa with hipa
  subst hipa
  refine ⟨dump, hd, ?_⟩
  split at h
  · rename_i addr hl
    split at h
    · rename_i hc
      simp only [Option.some_inj] at h
      exact Or.inl ⟨addr, hl, hc, h.symm⟩
    · rename_i hc
      simp only [Option.some_inj] at h
      exact Or.inr (Or.inl ⟨addr, hl, hc, h.symm⟩)
  · rename_i hl
    split at h
    · rename_i k hf
      simp only [Option.some_inj] at h
      exact Or.inr (Or.inr (Or.inl ⟨k, hl, hf, h.symm⟩))
    · rename_i hf
      simp only [Option.some_inj] at h
      exact Or.inr (Or.inr (Or.inr ⟨hl, hf, h.symm⟩))

theorem dump_count_change (l : Logger) (a : ARP) (d : List String)
    (h : dumpLines l a = some d) : countTagged logChangeMappingTag d = 0 :=
  countTagged_zero_of_not_event _ d (Or.inr (Or.inl rfl)) (dumpLines_not_event l a d h)

theorem dump_count_new (l : Logger) (a : ARP) (d : List String)
    (h : dumpLines l a = some d) : countTagged logNewMappingTag d = 0 :=
  countTagged_zero_of_not_event _ d (Or.inr (Or.inr rfl)) (dumpLines_not_event l a d h)

theorem log_panics_short_src (l : Logger) (a : ARP)
    (h6 : a.HwAddressSize = 6) (h4 : a.ProtAddressSize = 4)
    (hs : toIpv4 a.SourceProtAddress = none) :
    Logger.Log l a = none := by
  unfold Logger.Log
  rw [if_neg (by simp [h6]), if_neg (by simp [h4])]
  rcases hd : dumpLines l a with _ | dump
  · rfl
  · simp only [hs]

theorem log_table_spec (mode : Nat) (t : Table) (a : ARP) (r : LogResult) (ip : ipv4)
    (h6 : a.HwAddressSize = 6) (h4 : a.ProtAddressSize = 4)
    (hip : toIpv4 a.SourceProtAddress = some ip)
    (h : Logger.Log ⟨mode, t⟩ a = some r) :
    r.table = specUpdate t ip a.SourceHwAddress := by
  obtain ⟨dump, hd, hcase⟩ := log_valid_shape mode t a r ip h6 h4 hip h
  rcases hcase with ⟨addr, hl, hc, hr⟩ | ⟨addr, hl, hc, hr⟩ | ⟨k, hl, hf, hr⟩ | ⟨hl, hf, hr⟩ <;>
    subst hr
  · simp only [specUpdate, hl]
    rw [if_pos hc.symm]
  · simp only [specUpdate, hl]
    rw [if_neg (fun he => hc he.symm)]
  · simp [specUpdate, hl, hf]
  · simp [specUpdate, hl, hf]

theorem log_preserves_inv (l : Logger) (a : ARP) (r : LogResult)
    (hinv : tableInv l.arptable) (h : Logger.Log l a = some r) : tableInv r.table := by
  by_cases hval : a.HwAddressSize = 6 ∧ a.ProtAddressSize = 4
  · rcases hs : toIpv4 a.SourceProtAddress with _ | ip
    · rw [log_panics_short_src l a hval.1 hval.2 hs] at h
      exact Option.noConfusion h
    · rw [log_table_spec l.mode l.arptable a r ip hval.1 hval.2 hs h]
      exact specUpdate_inv l.arptable ip a.SourceHwAddress hinv
  · have hbad : a.HwAddressSize ≠ 6 ∨ a.ProtAddressSize ≠ 4 := by tauto
    obtain ⟨w, hw, -⟩ := log_invalid_size l a hbad
    rw [hw] at h
    injection h with h
    rw [← h]
    exact hinv

theorem processAll_inv (mode : Nat) (as : List ARP) (t0 t : Table)
    (hinv : tableInv t0) (h : processAll mode t0 as = some t) : tableInv t := by
  induction as generalizing t0 with
  | nil =>
    simp only [processAll, Option.some_inj] at h
    rw [← h]
    exact hinv
  | cons a as ih =>
    unfold processAll at h
    rcases hr : Logger.Log ⟨mode, t0⟩ a with _ | r <;> rw [hr] at h
    · exact Option.noConfusion h
    · exact ih r.table (log_preserves_inv ⟨mode, t0⟩ a r hinv hr) h

theorem noSelfConflict_of_inv (t : Table) (h : tableInv t) : noSelfConflict t := by
  intro ip1 ip2 hw h1 h2
  have m1 := lookupTable_some_mem t ip1 hw h1
  have m2 := lookupTable_some_mem t ip2 hw h2
  have heq : (ip1, hw) = (ip2, hw) := List.inj_on_of_nodup_map h.2 m1 m2 (by simp)
  exact congrArg Prod.fst heq

/-- Sample addresses and announcements used to instantiate the theorems. -/
def ipA : ipv4 := ⟨192, 168, 0, 1⟩

/-- A second sample IP. -/
def ipB : ipv4 := ⟨192, 168, 0, 2⟩

/-- A sample hardware address. -/
def macOne : HardwareAddr := [1, 2, 3, 4, 5, 6]

/-- A second sample hardware address. -/
def macTwo : HardwareAddr := [17, 34, 51, 68, 85, 102]

/-- Announcement: ipA claims macOne. -/
def annAM1 : ARP :=
  ⟨1, 6, 4, macOne, [192, 168, 0, 1], [255, 255, 255, 255, 255, 255], [192, 168, 0, 2]⟩

/-- Announcement: ipB claims macOne. -/
def annBM1 : ARP :=
  ⟨1, 6, 4, macOne, [192, 168, 0, 2], [255, 255, 255, 255, 255, 255], [192, 168, 0, 1]⟩

/-- Announcement: ipA claims macTwo. -/
def annAM2 : ARP :=
  ⟨2, 6, 4, macTwo, [192, 168, 0, 1], [255, 255, 255, 255, 255, 255], [192, 168, 0, 2]⟩

/-- Malformed announcement: the declared hardware address size is five. -/
def annBadHw : ARP :=
  ⟨1, 5, 4, [1, 2, 3, 4, 5], [192, 168, 0, 2], [], [192, 168, 0, 1]⟩

/-- Announcement whose declared protocol size is four but whose source
protocol address holds only two bytes. -/
def annShortSrc : ARP :=
  ⟨1, 6, 4, macOne, [10, 0], [255, 255, 255, 255, 255, 255], [10, 0, 0, 1]⟩

/-- Announcement whose destination protocol address holds only one byte. -/
def annShortDst : ARP :=
  ⟨1, 6, 4, macOne, [10, 0, 0, 1], [255, 255, 255, 255, 255, 255], [10]⟩

/-- C1: every table reachable through Logger.Log from the empty table never
maps two different IP keys to the same hardware address; the update
algorithm removes the entry under the old IP in the same call in which a
hardware address migrates. -/
theorem log_no_self_conflict (mode : Nat) (as : List ARP) (t : Table)
    (h : processAll mode [] as = some t) : noSelfConflict t :=
  noSelfConflict_of_inv t
    (processAll_inv mode as [] t ⟨List.nodup_nil, List.nodup_nil⟩ h)

/-- Witness for C1: the table reached after a concrete migration sequence
has no duplicated hardware address. -/
theorem log_no_self_conflict_witness : noSelfConflict [(ipB, macOne)] :=
  log_no_self_conflict 2 [annAM1, annBM1] [(ipB, macOne)] (by decide)

/-- C2: from table state A maps to M1, a valid announcement with sender B
and hardware address M1 leaves exactly the binding B maps to M1, and with
reporting enabled exactly one changed-mapping line is emitted, showing the
previous binding of A and the new binding of B. -/
theorem log_migration_correct (mode : Nat) (A B : ipv4) (M1 : HardwareAddr)
    (a : ARP) (r : LogResult)
    (h6 : a.HwAddressSize = 6) (h4 : a.ProtAddressSize = 4)
    (hsrc : toIpv4 a.SourceProtAddress = some B)
    (hhw : a.SourceHwAddress = M1)
    (hne : B ≠ A)
    (hlog : Logger.Log ⟨mode, [(A, M1)]⟩ a = some r) :
    r.table = [(B, M1)] ∧
      (mode &&& LogNewPairs = LogNewPairs →
        countTagged logChangeMappingTag r.lines = 1 ∧
        changeMappingLine (ipv4String A) (hwAddrString M1) (ipv4String B) (hwAddrString M1)
          ∈ r.lines) := by
  subst hhw
  obtain ⟨dump, hd, hcase⟩ := log_valid_shape _ _ a r B h6 h4 hsrc hlog
  have hlook : lookupTable [(A, a.SourceHwAddress)] B = none := by
    have hAB : A ≠ B := fun h => hne h.symm
    simp [lookupTable, hAB]
  have hfind : findByValue [(A, a.SourceHwAddress)] a.SourceHwAddress = some A := by
    simp [findByValue]
  rcases hcase with ⟨addr, hl, _, _⟩ | ⟨addr, hl, _, _⟩ | ⟨k, hl, hf, hr⟩ | ⟨hl, hf, hr⟩
  · rw [hlook] at hl
    exact Option.noConfusion hl
  · rw [hlook] at hl
    exact Option.noConfusion hl
  · rw [hfind] at hf
    injection hf with hf
    subst hf
    subst hr
    constructor
    · simp [insertTable, eraseKey]
    · intro hrep
      rw [if_pos hrep]
      constructor
      · rw [countTagged_append, dump_count_change _ a dump hd,
          countTagged_singleton_true _ _ (strTagged_change_self _ _ _ _)]
      · exact List.mem_append_right _ (List.mem_singleton.mpr rfl)
  · rw [hfind] at hf
    exact Option.noConfusion hf

/-- Witness for C2 at concrete addresses. -/
theorem log_migration_correct_witness :
    (⟨[(ipB, macOne)],
        [changeMappingLine (ipv4String ipA) (hwAddrString macOne) (ipv4String ipB)
          (hwAddrString macOne)]⟩ : LogResult).table = [(ipB, macOne)] ∧
      ((2 : Nat) &&& LogNewPairs = LogNewPairs →
        countTagged logChangeMappingTag
          (⟨[(ipB, macOne)],
            [changeMappingLine (ipv4String ipA) (hwAddrString macOne) (ipv4String ipB)
              (hwAddrString macOne)]⟩ : LogResult).lines = 1 ∧
        changeMappingLine (ipv4String ipA) (hwAddrString macOne) (ipv4String ipB)
          (hwAddrString macOne) ∈
          (⟨[(ipB, macOne)],
            [changeMappingLine (ipv4String ipA) (hwAddrString macOne) (ipv4String ipB)
              (hwAddrString macOne)]⟩ : LogResult).lines) :=
  log_migration_correct 2 ipA ipB macOne annBM1 _ rfl rfl rfl rfl (by decide) (by decide)

theorem log_self_binding (mode : Nat) (t : Table) (a : ARP) (r : LogResult) (ip : ipv4)
    (h6 : a.HwAddressSize = 6) (h4 : a.ProtAddressSize = 4)
    (hip : toIpv4 a.SourceProtAddress = some ip)
    (h : Logger.Log ⟨mode, t⟩ a = some r) :
    lookupTable r.table ip = some a.SourceHwAddress := by
  obtain ⟨dump, hd, hcase⟩ := log_valid_shape mode t a r ip h6 h4 hip h
  rcases hcase with ⟨addr, hl, hc, hr⟩ | ⟨addr, hl, hc, hr⟩ | ⟨k, hl, hf, hr⟩ |
      ⟨hl, hf, hr⟩ <;> subst hr
  · rw [show (⟨t, dump⟩ : LogResult).table = t from rfl, hl, hc]
  · exact lookupTable_insertTable_self _ ip _
  · exact lookupTable_insertTable_self _ ip _
  · exact lookupTable_insertTable_self _ ip _

/-- C3: a second Log call with the very same announcement changes nothing:
the table stays as after the first call and no classification line is
emitted, whatever the mode flags are. -/
theorem log_idempotent_repeat (mode : Nat) (t : Table) (a : ARP) (r1 r2 : LogResult)
    (h1 : Logger.Log ⟨mode, t⟩ a = some r1)
    (h2 : Logger.Log ⟨mode, r1.table⟩ a = some r2) :
    r2.table = r1.table ∧
      countTagged logChangeMappingTag r2.lines = 0 ∧
      countTagged logNewMappingTag r2.lines = 0 := by
  by_cases hval : a.HwAddressSize = 6 ∧ a.ProtAddressSize = 4
  · obtain ⟨h6, h4⟩ := hval
    rcases hs : toIpv4 a.SourceProtAddress with _ | ip
    · rw [log_panics_short_src _ a h6 h4 hs] at h1
      exact Option.noConfusion h1
    · have hbind : lookupTable r1.table ip = some a.SourceHwAddress :=
        log_self_binding mode t a r1 ip h6 h4 hs h1
      obtain ⟨dump, hd, hcase⟩ := log_valid_shape mode r1.table a r2 ip h6 h4 hs h2
      rcases hcase with ⟨addr, hl, hc, hr⟩ | ⟨addr, hl, hc, hr⟩ | ⟨k, hl, hf, hr⟩ |
          ⟨hl, hf, hr⟩
      · subst hr
        exact ⟨rfl, dump_count_change _ a dump hd, dump_count_new _ a dump hd⟩
      · rw [hbind] at hl
        injection hl with hl
        exact absurd hl hc
      · rw [hbind] at hl
        exact Option.noConfusion hl
      · rw [hbind] at hl
        exact Option.noConfusion hl
  · have hbad : a.HwAddressSize ≠ 6 ∨ a.ProtAddressSize ≠ 4 := by tauto
    obtain ⟨w2, hw2, hkind2⟩ := log_invalid_size ⟨mode, r1.table⟩ a hbad
    rw [hw2] at h2
    injection h2 with h2
    refine ⟨by rw [← h2], ?_, ?_⟩ <;> rw [← h2] <;>
      rcases hkind2 with hk | hk <;> subst hk
    · exact countTagged_singleton_false _ _ (warn_not_change _)
    · exact countTagged_singleton_false _ _ (warn_prot_not_change _)
    · exact countTagged_singleton_false _ _ (warn_not_new _)
    · exact countTagged_singleton_false _ _ (warn_prot_not_new _)

/-- Witness for C3: announcing the known binding a second time changes
nothing and emits no classification line. -/
theorem log_idempotent_repeat_witness :
    (⟨[(ipA, macOne)], []⟩ : LogResult).table =
      (⟨[(ipA, macOne)],
        [newMappingLine (ipv4String ipA) (hwAddrString macOne)]⟩ : LogResult).table ∧
      countTagged logChangeMappingTag (⟨[(ipA, macOne)], []⟩ : LogResult).lines = 0 ∧
      countTagged logNewMappingTag (⟨[(ipA, macOne)], []⟩ : LogResult).lines = 0 :=
  log_idempotent_repeat 2 [] annAM1 _ _ (by decide) (by decide)

/-- C4: when the table maps A to M1 and a valid announcement binds A to a
different address M2 held by no other entry, the entry of A becomes M2 and,
with reporting enabled, exactly one changed-mapping line shows the previous
binding A with M1 and the new binding A with M2. -/
theorem log_changed_binding (mode : Nat) (A : ipv4) (M1 M2 : HardwareAddr)
    (t : Table) (a : ARP) (r : LogResult)
    (h6 : a.HwAddressSize = 6) (h4 : a.ProtAddressSize = 4)
    (hsrc : toIpv4 a.SourceProtAddress = some A)
    (hhw : a.SourceHwAddress = M2)
    (hne : M2 ≠ M1)
    (hlook : lookupTable t A = some M1)
    (hno : ∀ p ∈ t, p.2 ≠ M2)
    (hlog : Logger.Log ⟨mode, t⟩ a = some r) :
    r.table = insertTable t A M2 ∧
      lookupTable r.table A = some M2 ∧
      (mode &&& LogNewPairs = LogNewPairs →
        countTagged logChangeMappingTag r.lines = 1 ∧
        changeMappingLine (ipv4String A) (hwAddrString M1) (ipv4String A) (hwAddrString M2)
          ∈ r.lines) := by
  subst hhw
  obtain ⟨dump, hd, hcase⟩ := log_valid_shape _ _ a r A h6 h4 hsrc hlog
  have hdel : deleteByValue t a.SourceHwAddress = t :=
    deleteByValue_of_no_match t _ hno
  rcases hcase with ⟨addr, hl, hc, hr⟩ | ⟨addr, hl, hc, hr⟩ | ⟨k, hl, hf, hr⟩ |
      ⟨hl, hf, hr⟩
  · rw [hlook] at hl
    injection hl with hl
    subst hl
    exact absurd hc hne
  · subst hr
    refine ⟨by rw [show (insertTable (deleteByValue t a.SourceHwAddress) A
        a.SourceHwAddress) = insertTable t A a.SourceHwAddress from by rw [hdel]], ?_, ?_⟩
    · exact lookupTable_insertTable_self _ A _
    · intro hrep
      rw [if_pos hrep]
      rw [hdel, hlook]
      constructor
      · rw [countTagged_append, dump_count_change _ a dump hd,
          countTagged_singleton_true _ _ (strTagged_change_self _ _ _ _)]
      · exact List.mem_append_right _ (List.mem_singleton.mpr rfl)
  · rw [hlook] at hl
    exact Option.noConfusion hl
  · rw [hlook] at hl
    exact Option.noConfusion hl

/-- Witness for C4 at concrete addresses. -/
theorem log_changed_binding_witness :
    (⟨[(ipA, macTwo)],
        [changeMappingLine (ipv4String ipA) (hwAddrString macOne) (ipv4String ipA)
          (hwAddrString macTwo)]⟩ : LogResult).table =
      insertTable [(ipA, macOne)] ipA macTwo ∧
      lookupTable
        (⟨[(ipA, macTwo)],
          [changeMappingLine (ipv4String ipA) (hwAddrString macOne) (ipv4String ipA)
            (hwAddrString macTwo)]⟩ : LogResult).table ipA = some macTwo ∧
      ((2 : Nat) &&& LogNewPairs = LogNewPairs →
        countTagged logChangeMappingTag
          (⟨[(ipA, macTwo)],
            [changeMappingLine (ipv4String ipA) (hwAddrString macOne) (ipv4String ipA)
              (hwAddrString macTwo)]⟩ : LogResult).lines = 1 ∧
        changeMappingLine (ipv4String ipA) (hwAddrString macOne) (ipv4String ipA)
          (hwAddrString macTwo) ∈
          (⟨[(ipA, macTwo)],
            [changeMappingLine (ipv4String ipA) (hwAddrString macOne) (ipv4String ipA)
              (hwAddrString macTwo)]⟩ : LogResult).lines) :=
  log_changed_binding 2 ipA macOne macTwo [(ipA, macOne)] annAM2 _ rfl rfl rfl rfl
    (by decide) (by decide) (by decide) (by decide)

/-- C5: from the empty table, a valid announcement binding A to M1 yields
the table with exactly that binding and, with reporting enabled, exactly
one new-mapping line for A and M1. -/
theorem log_new_binding (mode : Nat) (A : ipv4) (M1 : HardwareAddr) (a : ARP)
    (r : LogResult)
    (h6 : a.HwAddressSize = 6) (h4 : a.ProtAddressSize = 4)
    (hsrc : toIpv4 a.SourceProtAddress = some A)
    (hhw : a.SourceHwAddress = M1)
    (hlog : Logger.Log ⟨mode, []⟩ a = some r) :
    r.table = [(A, M1)] ∧
      (mode &&& LogNewPairs = LogNewPairs →
        countTagged logNewMappingTag r.lines = 1 ∧
        newMappingLine (ipv4String A) (hwAddrString M1) ∈ r.lines) := by
  subst hhw
  obtain ⟨dump, hd, hcase⟩ := log_valid_shape _ _ a r A h6 h4 hsrc hlog
  rcases hcase with ⟨addr, hl, _, _⟩ | ⟨addr, hl, _, _⟩ | ⟨k, hl, hf, hr⟩ |
      ⟨hl, hf, hr⟩
  · exact Option.noConfusion hl
  · exact Option.noConfusion hl
  · exact Option.noConfusion hf
  · subst hr
    refine ⟨rfl, fun hrep => ?_⟩
    rw [if_pos hrep]
    exact ⟨by rw [countTagged_append, dump_count_new _ a dump hd,
        countTagged_singleton_true _ _ (strTagged_new_self _ _)],
      List.mem_append_right _ (List.mem_singleton.mpr rfl)⟩

/-- Witness for C5 at concrete addresses. -/
theorem log_new_binding_witness :
    (⟨[(ipA, macOne)],
        [newMappingLine (ipv4String ipA) (hwAddrString macOne)]⟩ : LogResult).table =
      [(ipA, macOne)] ∧
      ((2 : Nat) &&& LogNewPairs = LogNewPairs →
        countTagged logNewMappingTag
          (⟨[(ipA, macOne)],
            [newMappingLine (ipv4String ipA) (hwAddrString macOne)]⟩ : LogResult).lines = 1 ∧
        newMappingLine (ipv4String ipA) (hwAddrString macOne) ∈
          (⟨[(ipA, macOne)],
            [newMappingLine (ipv4String ipA) (hwAddrString macOne)]⟩ : LogResult).lines) :=
  log_new_binding 2 ipA macOne annAM1 _ rfl rfl rfl rfl (by decide)

/-- C6: an announcement whose declared hardware size is not six or whose
declared protocol size is not four produces exactly one warning line, no
table mutation, no classification line and no raw-dump line, whatever the
mode flags are, and the call is not fatal. -/
theorem log_rejects_malformed (mode : Nat) (t : Table) (a : ARP)
    (hbad : a.HwAddressSize ≠ 6 ∨ a.ProtAddressSize ≠ 4) :
    ∃ w, Logger.Log ⟨mode, t⟩ a = some ⟨t, [w]⟩ ∧
      countTagged logWarningTag [w] = 1 ∧
      countTagged logChangeMappingTag [w] = 0 ∧
      countTagged logNewMappingTag [w] = 0 ∧
      countRawDump [w] = 0 := by
  obtain ⟨w, hw, hkind⟩ := log_invalid_size ⟨mode, t⟩ a hbad
  refine ⟨w, hw, ?_, ?_, ?_, ?_⟩ <;> rcases hkind with hk | hk <;> subst hk
  · exact countTagged_singleton_true _ _ (strTagged_warn_hw _)
  · exact countTagged_singleton_true _ _ (strTagged_warn_prot _)
  · exact countTagged_singleton_false _ _ (warn_not_change _)
  · exact countTagged_singleton_false _ _ (warn_prot_not_change _)
  · exact countTagged_singleton_false _ _ (warn_not_new _)
  · exact countTagged_singleton_false _ _ (warn_prot_not_new _)
  · exact countRawDump_singleton_event _ (by simp [isEventLine, strTagged_warn_hw])
  · exact countRawDump_singleton_event _ (by simp [isEventLine, strTagged_warn_prot])

/-- Witness for C6: a five-byte declared hardware size is rejected with one
warning line and nothing else, in combined mode. -/
theorem log_rejects_malformed_witness :
    ∃ w, Logger.Log ⟨3, []⟩ annBadHw = some ⟨[], [w]⟩ ∧
      countTagged logWarningTag [w] = 1 ∧
      countTagged logChangeMappingTag [w] = 0 ∧
      countTagged logNewMappingTag [w] = 0 ∧
      countRawDump [w] = 0 :=
  log_rejects_malformed 3 [] annBadHw (by decide)

theorem dumpLines_of_dump_all (l : Logger) (a : ARP) (d : List String)
    (hm : l.mode &&& LogAllPackets = LogAllPackets)
    (h : dumpLines l a = some d) :
    ∃ s, prettyPrint a = some s ∧ d = [s] := by
  unfold dumpLines at h
  rw [if_pos hm] at h
  rcases hp : prettyPrint a with _ | s <;> rw [hp] at h
  · exact Option.noConfusion h
  · simp only [Option.map_some', Option.some_inj] at h
    exact ⟨s, rfl, h.symm⟩

/-- C7: with the dump-all flag set and report-changes clear, a valid
announcement produces exactly one raw-dump line and no classification line,
while the table is still updated exactly as the classification algorithm of
the spec prescribes. -/
theorem log_dump_all_independent (mode : Nat) (t : Table) (a : ARP) (r : LogResult)
    (ip : ipv4)
    (hdumpAll : mode &&& LogAllPackets = LogAllPackets)
    (hrep : mode &&& LogNewPairs ≠ LogNewPairs)
    (h6 : a.HwAddressSize = 6) (h4 : a.ProtAddressSize = 4)
    (hsrc : toIpv4 a.SourceProtAddress = some ip)
    (hlog : Logger.Log ⟨mode, t⟩ a = some r) :
    countRawDump r.lines = 1 ∧
      countTagged logChangeMappingTag r.lines = 0 ∧
      countTagged logNewMappingTag r.lines = 0 ∧
      r.table = specUpdate t ip a.SourceHwAddress := by
  have htab := log_table_spec mode t a r ip h6 h4 hsrc hlog
  obtain ⟨dump, hd, hcase⟩ := log_valid_shape mode t a r ip h6 h4 hsrc hlog
  obtain ⟨s, hp, hds⟩ := dumpLines_of_dump_all ⟨mode, t⟩ a dump hdumpAll hd
  subst hds
  have hraw : isEventLine s = false := prettyPrint_not_event a s hp
  have hall : ∀ x ∈ [s], isEventLine x = false := by
    intro x hx
    rw [List.mem_singleton.mp hx]
    exact hraw
  have hlines : r.lines = [s] := by
    rcases hcase with ⟨addr, hl, hc, hr⟩ | ⟨addr, hl, hc, hr⟩ | ⟨k, hl, hf, hr⟩ |
        ⟨hl, hf, hr⟩ <;> subst hr <;> simp [if_neg hrep]
  rw [hlines]
  exact ⟨countRawDump_singleton_raw s hraw,
    countTagged_zero_of_not_event _ [s] (Or.inr (Or.inl rfl)) hall,
    countTagged_zero_of_not_event _ [s] (Or.inr (Or.inr rfl)) hall,
    htab⟩

/-- Witness for C7 on the empty table. -/
theorem log_dump_all_independent_witness :
    countRawDump
        (⟨[(ipA, macOne)],
          ["Operation: Request, Source MAC: 01:02:03:04:05:06, Source IP: 192.168.0.1, Destination MAC: ff:ff:ff:ff:ff:ff, Destination IP: 192.168.0.2"]⟩ :
          LogResult).lines = 1 ∧
      countTagged logChangeMappingTag
        (⟨[(ipA, macOne)],
          ["Operation: Request, Source MAC: 01:02:03:04:05:06, Source IP: 192.168.0.1, Destination MAC: ff:ff:ff:ff:ff:ff, Destination IP: 192.168.0.2"]⟩ :
          LogResult).lines = 0 ∧
      countTagged logNewMappingTag
        (⟨[(ipA, macOne)],
          ["Operation: Request, Source MAC: 01:02:03:04:05:06, Source IP: 192.168.0.1, Destination MAC: ff:ff:ff:ff:ff:ff, Destination IP: 192.168.0.2"]⟩ :
          LogResult).lines = 0 ∧
      (⟨[(ipA, macOne)],
          ["Operation: Request, Source MAC: 01:02:03:04:05:06, Source IP: 192.168.0.1, Destination MAC: ff:ff:ff:ff:ff:ff, Destination IP: 192.168.0.2"]⟩ :
          LogResult).table = specUpdate [] ipA annAM1.SourceHwAddress :=
  log_dump_all_independent 1 [] annAM1 _ ipA (by decide) (by decide) rfl rfl rfl
    (by decide)

theorem intercalate_go_hw (acc : String) (l : List Nat) :
    String.intercalate.go acc ":" (l.map byteHex) = acc ++ hwAddrRest l := by
  induction l generalizing acc with
  | nil => simp [String.intercalate.go, hwAddrRest]
  | cons b rest ih =>
    simp [String.intercalate.go, hwAddrRest, ih, String.append_assoc]

theorem hwAddrString_eq_colonHex (hw : List Nat) : hwAddrString hw = colonHexForm hw := by
  cases hw with
  | nil => rfl
  | cons b rest =>
    simp [hwAddrString, colonHexForm, String.intercalate, intercalate_go_hw]

theorem ipv4String_eq_dotted (ip : ipv4) : ipv4String ip = dottedDecimalForm ip := by
  simp [ipv4String, dottedDecimalForm, String.intercalate, String.intercalate.go,
    String.append_assoc]

/-- C8: the raw-dump line holds, in this order, the operation, the source
MAC, the source IP, the destination MAC and the destination IP, with MACs
in colon-hex form and IPs in dotted-decimal form. -/
theorem prettyPrint_field_order (a : ARP) (sip dip : ipv4)
    (hs : toIpv4 a.SourceProtAddress = some sip)
    (hd : toIpv4 a.DstProtAddress = some dip) :
    prettyPrint a = some ("Operation: " ++ opName a.Operation
      ++ ", Source MAC: " ++ colonHexForm a.SourceHwAddress
      ++ ", Source IP: " ++ dottedDecimalForm sip
      ++ ", Destination MAC: " ++ colonHexForm a.DstHwAddress
      ++ ", Destination IP: " ++ dottedDecimalForm dip) := by
  simp only [prettyPrint, hs, hd, hwAddrString_eq_colonHex, ipv4String_eq_dotted]

/-- Witness for C8 on a concrete announcement. -/
theorem prettyPrint_field_order_witness :
    prettyPrint annAM1 = some ("Operation: " ++ opName annAM1.Operation
      ++ ", Source MAC: " ++ colonHexForm annAM1.SourceHwAddress
      ++ ", Source IP: " ++ dottedDecimalForm ipA
      ++ ", Destination MAC: " ++ colonHexForm annAM1.DstHwAddress
      ++ ", Destination IP: " ++ dottedDecimalForm ipB) :=
  prettyPrint_field_order annAM1 ipA ipB rfl rfl

/-- C9: NewLogger yields the configuration error exactly when no output
destination or no logging mode is chosen; with both nonzero no
configuration error is returned. -/
theorem newLogger_config_error_iff (dest mode : Nat) :
    (∃ e, NewLogger dest mode = Except.error e) ↔ (dest = 0 ∨ mode = 0) := by
  constructor
  · intro he
    obtain ⟨e, he⟩ := he
    by_contra hno
    unfold NewLogger at he
    rw [if_neg hno] at he
    exact Except.noConfusion he
  · intro h
    unfold NewLogger
    rw [if_pos h]
    exact ⟨_, rfl⟩

theorem toIpv4_some_of_length (l : List Nat) (h : 4 ≤ l.length) :
    ∃ ip, toIpv4 l = some ip := by
  rcases l with _ | ⟨b0, l⟩
  · exact absurd h (by simp)
  rcases l with _ | ⟨b1, l⟩
  · exact absurd h (by simp)
  rcases l with _ | ⟨b2, l⟩
  · exact absurd h (by simp)
  rcases l with _ | ⟨b3, l⟩
  · exact absurd h (by simp)
  exact ⟨⟨b0, b1, b2, b3⟩, rfl⟩

/-- C10: validation reads only the declared size fields; when the declared
sizes are six and four and the actual byte sequences hold at least four
bytes (the destination one being needed only in dump-all mode), Log
returns a result, while a two-byte source protocol address under declared
size four makes Log panic, as does a one-byte destination protocol address
in dump-all mode. -/
theorem log_total_iff_lengths (mode : Nat) (t : Table) (a : ARP)
    (h6 : a.HwAddressSize = 6) (h4 : a.ProtAddressSize = 4)
    (hs : 4 ≤ a.SourceProtAddress.length)
    (hd : mode &&& LogAllPackets = LogAllPackets → 4 ≤ a.DstProtAddress.length) :
    (∃ r, Logger.Log ⟨mode, t⟩ a = some r) ∧
      Logger.Log ⟨LogNewPairs, []⟩ annShortSrc = none ∧
      Logger.Log ⟨LogAllPackets, []⟩ annShortDst = none := by
  refine ⟨?_, by decide, by decide⟩
  obtain ⟨ip, hip⟩ := toIpv4_some_of_length _ hs
  have hdl : ∃ d, dumpLines ⟨mode, t⟩ a = some d := by
    unfold dumpLines
    dsimp only
    by_cases hm : mode &&& LogAllPackets = LogAllPackets
    · obtain ⟨dip, hdip⟩ := toIpv4_some_of_length _ (hd hm)
      rw [if_pos hm]
      unfold prettyPrint
      rw [hip, hdip]
      exact ⟨_, rfl⟩
    · rw [if_neg hm]
      exact ⟨[], rfl⟩
  obtain ⟨d, hdl⟩ := hdl
  unfold Logger.Log
  rw [if_neg (by simp [h6]), if_neg (by simp [h4]), hdl, hip]
  dsimp only
  rcases hl : lookupTable t ip with _ | addr
  · rcases hf : findByValue t a.SourceHwAddress with _ | k
    · exact ⟨_, rfl⟩
    · exact ⟨_, rfl⟩
  · dsimp only
    by_cases hc : a.SourceHwAddress = addr
    · rw [if_pos hc]
      exact ⟨_, rfl⟩
    · rw [if_neg hc]
      exact ⟨_, rfl⟩

/-- Witness for C10: a concrete well-formed announcement is processed, and
the two short announcements panic. -/
theorem log_total_iff_lengths_witness :
    (∃ r, Logger.Log ⟨2, []⟩ annAM1 = some r) ∧
      Logger.Log ⟨LogNewPairs, []⟩ annShortSrc = none ∧
      Logger.Log ⟨LogAllPackets, []⟩ annShortDst = none :=
  log_total_iff_lengths 2 [] annAM1 rfl rfl (by decide) (by decide)

end Arp
